import Mathlib

/-!
Verification of the `deadcode.py` dead-code scanner.

The source is shallowly embedded: file contents are `List Char`, Python
dicts become insertion-ordered association lists, every regular expression
of the source is translated into a dedicated position-wise scanner, and the
two-phase `CodeAnalyzer.analyze` pipeline becomes a pure function over a
filesystem snapshot.
-/

/-! ## Character classes and low-level scanning primitives -/

/-- The `\w` character class of the source's regular expressions
(ASCII word characters). -/
def isWordChar (c : Char) : Bool :=
  (('a' ≤ c && c ≤ 'z') || ('A' ≤ c && c ≤ 'Z') || ('0' ≤ c && c ≤ '9') || c = '_')

/-- The `\s` character class (Python whitespace). -/
def isSpaceChar (c : Char) : Bool :=
  (c = ' ' || c = '\t' || c = '\n' || c = '\r' || c = '\x0b' || c = '\x0c')

/-- `l[i:j]` slicing on a character list (indices already clamped). -/
def sub (l : List Char) (i j : Nat) : List Char :=
  (l.drop i).take (j - i)

/-- Does `pat` occur at position `i` of `l`? -/
def occursAt (pat l : List Char) (i : Nat) : Bool :=
  pat.isPrefixOf (l.drop i)

/-- Length of the maximal run of characters satisfying `p` from position `i`
(the greedy `X*` / `X+` step of the embedded regular expressions). -/
def countWhile (p : Char → Bool) (l : List Char) (i : Nat) : Nat :=
  ((l.drop i).takeWhile p).length

/-- First position (if any) at which `pat` occurs in `l`. -/
def findSub (pat l : List Char) : Option Nat :=
  (List.range (l.length + 1)).find? (fun i => occursAt pat l i)

/-- Does `pat` occur anywhere in `l`?  (Python's `in` on strings.) -/
def containsSub (pat l : List Char) : Bool :=
  (List.range (l.length + 1)).any (fun i => occursAt pat l i)

/-- Substring test on strings. -/
def strContains (s pat : String) : Bool :=
  containsSub pat.toList s.toList

/-- ASCII lowercasing of one character (Python `str.lower` on the
identifiers the source feeds it). -/
def lowerCh (c : Char) : Char :=
  if 'A' ≤ c ∧ c ≤ 'Z' then Char.ofNat (c.toNat + 32) else c

/-- ASCII lowercasing of a string. -/
def lowerStr (s : String) : String :=
  (s.toList.map lowerCh).asString

/-- Split a character list at every occurrence of the character `sep`
(Python `str.split(sep)` for a one-character separator). -/
def splitChGo (sep : Char) : List Char → List Char → List (List Char)
  | [], acc => [acc.reverse]
  | c :: rest, acc =>
    if c = sep then acc.reverse :: splitChGo sep rest []
    else splitChGo sep rest (c :: acc)

/-- Python `str.split('\n')`-style splitting. -/
def splitCh (sep : Char) (l : List Char) : List (List Char) :=
  splitChGo sep l []

/-- Split on a multi-character separator, leftmost non-overlapping
(Python `str.split(sep)`). -/
def splitSubGo (sep : List Char) : Nat → List Char → List (List Char)
  | 0, l => [l]
  | fuel + 1, l =>
    match findSub sep l with
    | none => [l]
    | some i => sub l 0 i :: splitSubGo sep fuel (l.drop (i + sep.length))

/-- `name.split("::")` of the source, producing strings. -/
def splitParts (s : String) : List String :=
  (splitSubGo "::".toList (s.length + 1) s.toList).map List.asString

/-- Remove every occurrence of `pat`, left to right, non-overlapping
(Python `str.replace(pat, "")`). -/
def removeAllGo (pat : List Char) : Nat → List Char → List Char
  | 0, l => l
  | fuel + 1, l =>
    match findSub pat l with
    | none => l
    | some i => sub l 0 i ++ removeAllGo pat fuel (l.drop (i + pat.length))

/-- `os.path.basename` (split on `/`, keep the last component). -/
def basenameCh (l : List Char) : List Char :=
  ((splitCh '/' l).getLast?).getD []

/-- `os.path.basename(filepath).replace(".py", "")` of the source. -/
def pyModuleName (filepath : String) : String :=
  (removeAllGo ".py".toList (filepath.length + 1) (basenameCh filepath.toList)).asString

/-- Python `str.strip()` on an identifier fragment. -/
def stripWS (s : String) : String :=
  (((s.toList.dropWhile isSpaceChar).reverse.dropWhile isSpaceChar).reverse).asString

/-! ## Python-dict model

Dicts are association lists in insertion order.  Assignment to an existing
key replaces the value in place (the key keeps its position); assignment to
a fresh key appends. -/

/-- Insertion-ordered dictionary. -/
abbrev Dict (α : Type) := List (String × α)

/-- Python `d[k] = v`. -/
def dictSet : Dict α → String → α → Dict α
  | [], k, v => [(k, v)]
  | (k', v') :: d, k, v =>
    if k' = k then (k', v) :: d else (k', v') :: dictSet d k v

/-- Python `d.update(m)`: fold assignment over `m` in insertion order. -/
def dictUpdate (d m : Dict α) : Dict α :=
  m.foldl (fun acc p => dictSet acc p.1 p.2) d

/-- Lookup (first occurrence of the key). -/
def dictLookup : Dict α → String → Option α
  | [], _ => none
  | (k', v) :: d, k => if k' = k then some v else dictLookup d k

/-- Lookup of the value that a left-to-right fold of assignments would
leave behind (last occurrence wins). -/
def dictLookupLast : Dict α → String → Option α
  | [], _ => none
  | (k', v) :: d, k =>
    match dictLookupLast d k with
    | some r => some r
    | none => if k' = k then some v else none

/-- Python `k in d`. -/
def dictHasKey : Dict α → String → Bool
  | [], _ => false
  | (k', _) :: d, k => k' = k || dictHasKey d k

/-- `Option` alternative used to state the collection-phase lookups. -/
def optOr : Option α → Option α → Option α
  | some v, _ => some v
  | none, b => b

/-! ## Generic `re.finditer` driver

A matcher tries the embedded pattern at one position and returns the
captured data plus the match's end position; the driver scans left to
right, non-overlapping, exactly like `re.finditer`. -/

/-- Scanner loop for `re.finditer` (fuel is an upper bound on steps). -/
def finditerGo (m : List Char → Nat → Option (α × Nat)) (l : List Char) :
    Nat → Nat → List (Nat × α × Nat)
  | 0, _ => []
  | fuel + 1, pos =>
    if pos > l.length then []
    else
      match m l pos with
      | some (a, e) => (pos, a, e) :: finditerGo m l fuel (if pos < e then e else pos + 1)
      | none => finditerGo m l fuel (pos + 1)

/-- All matches of a pattern, as `(start, capture, end)` triples. -/
def finditer (m : List Char → Nat → Option (α × Nat)) (l : List Char) :
    List (Nat × α × Nat) :=
  finditerGo m l (l.length + 1) 0

/-- First match of a pattern anywhere in `l` (Python `re.search`). -/
def searchFirst (m : List Char → Nat → Option (α × Nat)) (l : List Char) : Option α :=
  (List.range (l.length + 1)).findSome? (fun i => (m l i).map (·.1))

/-- `len(re.findall(pattern, content))` for a pattern without groups:
the number of non-overlapping matches. -/
def countMatches (m : List Char → Nat → Option Nat) (l : List Char) : Nat :=
  (finditer (fun l i => (m l i).map (fun e => ((), e))) l).length

/-! ## Data model -/

/-- One extracted code element — the dictionary the source stores under
each qualified name (`name`, `lines`, `base_name`, `class_name`, `type`,
`status`). -/
structure ElementInfo where
  name : String
  lines : Nat
  base_name : String
  class_name : Option String
  type : String
  status : String
deriving Repr, DecidableEq

/-- A result row `(name, lines, usage_count, status)`. -/
abbrev Row := String × Nat × Nat × String

/-- The `declaredLines` component of a result row. -/
def rowLines (r : Row) : Nat := r.2.1

/-! ## PHP front end (`PhpAnalyzer`) -/

/-- `PhpAnalyzer.POTENTIAL_FALSE_POSITIVE_PATTERNS`. -/
def phpFPPatterns : List String :=
  ["Listener", "processNode", "Subscriber", "EventSubscriber", "Kernel",
   "onAuthenticationFailure", "onAuthenticationSuccess", "RequirementCollection",
   "getHelpHtml", "Command", "Handler", "onLogout", "__invoke", "teardown",
   "__toString", "getNodeType"]

/-- Match of `function\s+(\w+)\s*\(` at one position: captures the name,
returns the end (just past the `(`). -/
def matchPhpFunctionAt (l : List Char) (i : Nat) : Option (String × Nat) :=
  if occursAt "function".toList l i then
    let p1 := i + 8
    let s1 := countWhile isSpaceChar l p1
    if s1 = 0 then none
    else
      let p2 := p1 + s1
      let w := countWhile isWordChar l p2
      if w = 0 then none
      else
        let p3 := p2 + w
        let s2 := countWhile isSpaceChar l p3
        if l[p3 + s2]? = some '(' then some ((sub l p2 p3).asString, p3 + s2 + 1)
        else none
  else none

/-- Keyword alternation
`(?:class|interface|abstract\s+class|trait|enum)` (the alternatives start
with distinct letters, so the ordered choice is deterministic); returns the
position just past the keyword. -/
def phpClassKeywordAt (l : List Char) (i : Nat) : Option Nat :=
  if occursAt "class".toList l i then some (i + 5)
  else if occursAt "interface".toList l i then some (i + 9)
  else if occursAt "abstract".toList l i then
    let s := countWhile isSpaceChar l (i + 8)
    if s > 0 ∧ occursAt "class".toList l (i + 8 + s) then some (i + 8 + s + 5) else none
  else if occursAt "trait".toList l i then some (i + 5)
  else if occursAt "enum".toList l i then some (i + 4)
  else none

/-- Tail alternation `(?:\s*:\s*\w+|\s+extends|\s+implements|\s*\{)` of the
PHP class pattern, tried in the source's order. -/
def phpClassTailAt (l : List Char) (p3 : Nat) : Option Nat :=
  let alt1 :=
    let sA := countWhile isSpaceChar l p3
    if l[p3 + sA]? = some ':' then
      let sB := countWhile isSpaceChar l (p3 + sA + 1)
      let wB := countWhile isWordChar l (p3 + sA + 1 + sB)
      if wB > 0 then some (p3 + sA + 1 + sB + wB) else none
    else none
  let alt2 :=
    let s := countWhile isSpaceChar l p3
    if s > 0 ∧ occursAt "extends".toList l (p3 + s) then some (p3 + s + 7) else none
  let alt3 :=
    let s := countWhile isSpaceChar l p3
    if s > 0 ∧ occursAt "implements".toList l (p3 + s) then some (p3 + s + 10) else none
  let alt4 :=
    let s := countWhile isSpaceChar l p3
    if l[p3 + s]? = some '{' then some (p3 + s + 1) else none
  optOr alt1 (optOr alt2 (optOr alt3 alt4))

/-- Match of the PHP class pattern
`(?:class|interface|abstract\s+class|trait|enum)\s+(\w+)(?:\s*:\s*\w+|\s+extends|\s+implements|\s*\{)`
at one position, capturing the declared type name. -/
def matchPhpClassAt (l : List Char) (i : Nat) : Option (String × Nat) :=
  match phpClassKeywordAt l i with
  | none => none
  | some p1 =>
    let s1 := countWhile isSpaceChar l p1
    if s1 = 0 then none
    else
      let p2 := p1 + s1
      let w := countWhile isWordChar l p2
      if w = 0 then none
      else
        match phpClassTailAt l (p2 + w) with
        | none => none
        | some e => some ((sub l p2 (p2 + w)).asString, e)

/-- `re.sub(r"/\*.*?\*/", "", content, flags=re.DOTALL)`: drop each
leftmost non-greedy block comment; an unterminated `/*` is left in place. -/
def phpStripBlockGo : Nat → List Char → List Char
  | 0, l => l
  | fuel + 1, l =>
    match findSub "/*".toList l with
    | none => l
    | some i =>
      match findSub "*/".toList (l.drop (i + 2)) with
      | none => l
      | some j => sub l 0 i ++ phpStripBlockGo fuel (l.drop (i + 2 + j + 2))

/-- Block-comment removal. -/
def phpStripBlock (l : List Char) : List Char :=
  phpStripBlockGo (l.length + 1) l

/-- `re.sub(r"//.*?\n", "", content)`: drop each `//`-comment through its
newline; a `//` with no following newline matches nothing. -/
def phpStripLineGo : Nat → List Char → List Char
  | 0, l => l
  | fuel + 1, l =>
    match findSub "//".toList l with
    | none => l
    | some i =>
      match findSub ['\n'] (l.drop (i + 2)) with
      | none => l
      | some j => sub l 0 i ++ phpStripLineGo fuel (l.drop (i + 2 + j + 1))

/-- Line-comment removal. -/
def phpStripLine (l : List Char) : List Char :=
  phpStripLineGo (l.length + 1) l

/-- `PhpAnalyzer.find_class_name`: strip comments from the text before the
declaration, then take the last match of the class pattern. -/
def phpFindClassName (content : List Char) (position : Nat) : Option String :=
  let stripped := phpStripLine (phpStripBlock (sub content 0 position))
  match (finditer matchPhpClassAt stripped).getLast? with
  | some (_, name, _) => some name
  | none => none

/-- Match of `class\s+{class_name}\s+implements\s+([\w\s,]+)` at one
position, capturing the interface list.  When the greedy `[\w\s,]+` finds
no character after the `\s+` run, the regex backtracks one space into the
capture, so a run of two or more spaces still matches with capture `" "`. -/
def matchImplementsAt (cls : List Char) (l : List Char) (i : Nat) :
    Option (String × Nat) :=
  if occursAt "class".toList l i then
    let s1 := countWhile isSpaceChar l (i + 5)
    if s1 = 0 then none
    else
      let p := i + 5 + s1
      if occursAt cls l p then
        let p2 := p + cls.length
        let s2 := countWhile isSpaceChar l p2
        if s2 = 0 then none
        else
          let p3 := p2 + s2
          if occursAt "implements".toList l p3 then
            let s3 := countWhile isSpaceChar l (p3 + 10)
            if s3 = 0 then none
            else
              let p4 := p3 + 10 + s3
              let cap := countWhile
                (fun c => isWordChar c || isSpaceChar c || c = ',') l p4
              if cap > 0 then some ((sub l p4 (p4 + cap)).asString, p4 + cap)
              else if s3 ≥ 2 then some (" ", p4)
              else none
          else none
      else none
  else none

/-- `re.search` of the implements pattern over the whole file content. -/
def phpSearchImplements (content : List Char) (cls : String) : Option String :=
  searchFirst (matchImplementsAt cls.toList) content

/-- Match of `interface\s+{interface_name}\s*\{([^}]+)\}` at one position,
capturing the interface body. -/
def matchInterfaceBodyAt (itf : List Char) (l : List Char) (i : Nat) :
    Option (String × Nat) :=
  if occursAt "interface".toList l i then
    let s1 := countWhile isSpaceChar l (i + 9)
    if s1 = 0 then none
    else
      let p := i + 9 + s1
      if occursAt itf l p then
        let p2 := p + itf.length
        let s2 := countWhile isSpaceChar l p2
        if l[p2 + s2]? = some '{' then
          let b := p2 + s2 + 1
          let body := countWhile (fun c => c != '}') l b
          if body > 0 ∧ l[b + body]? = some '}' then
            some ((sub l b (b + body)).asString, b + body + 1)
          else none
        else none
      else none
  else none

/-- Match of `function\s+{method_name}\s*\(` at one position (the method
name is a literal here). -/
def matchNamedFunctionAt (meth : List Char) (l : List Char) (i : Nat) :
    Option (Unit × Nat) :=
  if occursAt "function".toList l i then
    let s1 := countWhile isSpaceChar l (i + 8)
    if s1 = 0 then none
    else
      let p := i + 8 + s1
      if occursAt meth l p then
        let s2 := countWhile isSpaceChar l (p + meth.length)
        if l[p + meth.length + s2]? = some '(' then
          some ((), p + meth.length + s2 + 1)
        else none
      else none
  else none

/-- `PhpAnalyzer.is_interface_method`. -/
def phpIsInterfaceMethod (methodName interfaceName : String) (content : List Char) :
    Bool :=
  match searchFirst (matchInterfaceBodyAt interfaceName.toList) content with
  | some body => (searchFirst (matchNamedFunctionAt methodName.toList) body.toList).isSome
  | none => false

/-- `PhpAnalyzer.count_function_lines`: scan from the declaration,
counting lines until the brace depth returns to zero. -/
def phpCountLinesGo : List Char → Int → Nat → Nat
  | [], _, lc => lc
  | c :: cs, bracket, lc =>
    if c = '{' then phpCountLinesGo cs (bracket + 1) lc
    else if c = '}' then
      if bracket - 1 = 0 then lc else phpCountLinesGo cs (bracket - 1) lc
    else if c = '\n' then phpCountLinesGo cs bracket (lc + 1)
    else phpCountLinesGo cs bracket lc

/-- Declared-line count for a PHP declaration starting at `startPos`. -/
def phpCountFunctionLines (content : List Char) (startPos : Nat) : Nat :=
  phpCountLinesGo (content.drop startPos) 0 1

/-- One step of `PhpAnalyzer.analyze_file_content`'s match loop. -/
def phpAFCStep (content : List Char) (elements : Dict ElementInfo)
    (m : Nat × String × Nat) : Dict ElementInfo :=
  let start := m.1
  let func_name := m.2.1
  let endPos := m.2.2
  if containsSub "#[Route".toList (sub content (start - 200) start) then elements
  else
    let class_name := phpFindClassName content start
    let skipInterface :=
      match class_name with
      | some cls =>
        match phpSearchImplements content cls with
        | some capture =>
          ((capture.splitOn ",").map stripWS).any
            (fun itf => phpIsInterfaceMethod func_name itf content)
        | none => false
      | none => false
    if skipInterface then elements
    else
      let full_name :=
        match class_name with
        | some c => c ++ "::" ++ func_name
        | none => func_name
      if dictHasKey elements full_name then elements
      else
        let status :=
          if phpFPPatterns.any (fun p => strContains full_name p) then
            "potential false positive"
          else ""
        elements ++ [(full_name,
          { name := full_name, lines := phpCountFunctionLines content endPos,
            base_name := func_name, class_name := class_name,
            type := "function", status := status })]

/-- `PhpAnalyzer.analyze_file_content` (the filepath argument is unused by
the source). -/
def phpAnalyzeFileContent (content : List Char) (_filepath : String) :
    Dict ElementInfo :=
  (finditer matchPhpFunctionAt content).foldl (phpAFCStep content) []

/-! ## PHP usage matching (`PhpAnalyzer.check_usage`) -/

/-- A usage matcher: pattern attempt at one position, returning the end. -/
abbrev Matcher := List Char → Nat → Option Nat

/-- Negative lookbehind `(?<!function\s)` (fixed width 9) at position `i`. -/
def afterFunctionKw (l : List Char) (i : Nat) : Bool :=
  decide (9 ≤ i) && occursAt "function".toList l (i - 9) &&
    (match l[i - 1]? with | some c => isSpaceChar c | none => false)

/-- `(?<!function\s){base}\s*\(`. -/
def phpMDirect (base : List Char) : Matcher := fun l i =>
  if afterFunctionKw l i then none
  else if occursAt base l i then
    let s := countWhile isSpaceChar l (i + base.length)
    if l[i + base.length + s]? = some '(' then some (i + base.length + s + 1) else none
  else none

/-- A literal head followed by `{base}\s*\(` (covers the `$this->`,
`self::` and `static::` call patterns). -/
def phpMQualified (head base : List Char) : Matcher := fun l i =>
  if occursAt head l i ∧ occursAt base l (i + head.length) then
    let p := i + head.length + base.length
    let s := countWhile isSpaceChar l p
    if l[p + s]? = some '(' then some (p + s + 1) else none
  else none

/-- A fully literal pattern (the static-attribute access patterns). -/
def phpMLiteral (lit : List Char) : Matcher := fun l i =>
  if occursAt lit l i then some (i + lit.length) else none

/-- The pattern list of `PhpAnalyzer.check_usage` for the element's type.
For the (never-extracted) static-attribute branch a `None` class renders as
the string `"None"` inside the f-string, as in the source. -/
def phpUsagePatterns (info : ElementInfo) : List Matcher :=
  if info.type = "function" then
    [phpMDirect info.base_name.toList,
     phpMQualified "$this->".toList info.base_name.toList,
     phpMQualified "self::".toList info.base_name.toList,
     phpMQualified "static::".toList info.base_name.toList]
  else
    let cls := match info.class_name with | some c => c | none => "None"
    [phpMLiteral (cls ++ "::$" ++ info.base_name).toList,
     phpMLiteral ("static::$" ++ info.base_name).toList,
     phpMLiteral ("self::$" ++ info.base_name).toList]

/-- `PhpAnalyzer.check_usage` with the file's decoded content passed in
(`none` = undecodable; the empty string is falsy in the source's
`if not content` test). -/
def phpCheckUsage (found : List String) (content? : Option String)
    (info : ElementInfo) : Option String :=
  if found.any (fun s => s = info.name) then none
  else
    match content? with
    | none => none
    | some content =>
      if content = "" then none
      else
        let total := ((phpUsagePatterns info).map
          (fun m => countMatches m content.toList)).sum
        if total > 0 then some info.name else none

/-! ## Python front end (`PythonAnalyzer`) -/

/-- `PythonAnalyzer.POTENTIAL_FALSE_POSITIVE_PATTERNS`. -/
def pyFPPatterns : List String :=
  ["test_", "setup", "teardown", "__str__", "__call__", "__repr__",
   "__init__", "__post_init__", "__getitem__", "before_sentry_send"]

/-- Extent of `(?:\.\w+)*` continuing a dotted decorator name. -/
def dottedEnd (l : List Char) : Nat → Nat → Nat
  | 0, p => p
  | fuel + 1, p =>
    if l[p]? = some '.' then
      let w := countWhile isWordChar l (p + 1)
      if w > 0 then dottedEnd l fuel (p + 1 + w) else p
    else p

/-- Interior of the decorator-argument group `[^)]*(?:"[^"]*"[^)]*)*\)`:
consume to the closing `)`, skipping double-quoted spans; `none` when the
group cannot close. -/
def argsInteriorGo (l : List Char) : Nat → Nat → Option Nat
  | 0, _ => none
  | fuel + 1, pos =>
    match l[pos]? with
    | none => none
    | some ')' => some (pos + 1)
    | some '"' =>
      match findSub "\"".toList (l.drop (pos + 1)) with
      | none => none
      | some k => argsInteriorGo l fuel (pos + 1 + k + 1)
    | some _ => argsInteriorGo l fuel (pos + 1)

/-- The optional argument group `(?:\s*\([^)]*(?:"[^"]*"[^)]*)*\))?`:
returns the position after the group, or `p` unchanged when the group is
not taken (including when it cannot close — the following mandatory
newline then fails exactly as the regex would). -/
def tryDecoArgs (l : List Char) (p : Nat) : Nat :=
  let s := countWhile isSpaceChar l p
  if l[p + s]? = some '(' then
    match argsInteriorGo l (l.length + 1) (p + s + 1) with
    | some e => e
    | none => p
  else p

/-- The stacked-decorator run `(?:@[^\n]+\n\s*)*`, greedy. -/
def middleDecos (l : List Char) : Nat → Nat → Nat
  | 0, pos => pos
  | fuel + 1, pos =>
    if l[pos]? = some '@' then
      let k := countWhile (fun c => c != '\n') l (pos + 1)
      if k = 0 then pos
      else if l[pos + 1 + k]? = some '\n' then
        let s := countWhile isSpaceChar l (pos + 1 + k + 1)
        middleDecos l fuel (pos + 1 + k + 1 + s)
      else pos
    else pos

/-- `(?:async\s+)?def\s+(\w+)\s*\(` at one position — the shared tail of
both Python declaration patterns, and the whole of `function_pattern`. -/
def matchPyDefAt (l : List Char) (i : Nat) : Option (String × Nat) :=
  let sAsync := countWhile isSpaceChar l (i + 5)
  let p0 := if occursAt "async".toList l i ∧ sAsync > 0 then i + 5 + sAsync else i
  if occursAt "def".toList l p0 then
    let s1 := countWhile isSpaceChar l (p0 + 3)
    if s1 = 0 then none
    else
      let p1 := p0 + 3 + s1
      let w := countWhile isWordChar l p1
      if w = 0 then none
      else
        let s2 := countWhile isSpaceChar l (p1 + w)
        if l[p1 + w + s2]? = some '(' then
          some ((sub l p1 (p1 + w)).asString, p1 + w + s2 + 1)
        else none
  else none

/-- The source's `decorator_pattern`
`@(\w+(?:\.\w+)*)(?:\s*\([^)]*(?:"[^"]*"[^)]*)*\))?\s*\n\s*(?:@[^\n]+\n\s*)*(?:async\s+)?def\s+(\w+)\s*\(`
at one position, capturing `(decorator_name, func_name)`. -/
def matchPyDecoratorAt (l : List Char) (i : Nat) : Option ((String × String) × Nat) :=
  if l[i]? = some '@' then
    let w1 := countWhile isWordChar l (i + 1)
    if w1 = 0 then none
    else
      let pn := dottedEnd l (l.length + 1) (i + 1 + w1)
      let decName := (sub l (i + 1) pn).asString
      let pArgs := tryDecoArgs l pn
      let ws := countWhile isSpaceChar l pArgs
      if (sub l pArgs (pArgs + ws)).any (fun c => c = '\n') then
        let p3 := middleDecos l (l.length + 1) (pArgs + ws)
        match matchPyDefAt l p3 with
        | some (fn, e) => some ((decName, fn), e)
        | none => none
      else none
  else none

/-- The per-file map from function name to the list of (first-in-stack)
decorator names the decorator scan records for it. -/
def decoratedFns (content : List Char) : Dict (List String) :=
  (finditer matchPyDecoratorAt content).foldl
    (fun d m =>
      let fn := m.2.1.2
      let dec := m.2.1.1
      dictSet d fn (((dictLookup d fn).getD []) ++ [dec])) []

/-- The per-file map from property-decorated function name to the match
start of its (last) `@property`/`@cached_property` occurrence. -/
def propertyFns (content : List Char) : Dict Nat :=
  (finditer matchPyDecoratorAt content).foldl
    (fun d m =>
      if m.2.1.1 = "property" ∨ m.2.1.1 = "cached_property" then
        dictSet d m.2.1.2 m.1
      else d) []

/-- Does the file record a decorator whose lowercased name contains
`"validator"` for this function name? -/
def hasValidatorDeco (content : List Char) (fn : String) : Bool :=
  ((dictLookup (decoratedFns content) fn).getD []).any
    (fun d => strContains (lowerStr d) "validator")

/-- One line matched against `^(\s*)class\s+(\w+)(?:\s*\([\w\s,]*\))?\s*:`
(`re.match`, anchored at the start of the line); returns the indentation
width and the class name. -/
def matchPyClassLine (ln : List Char) : Option (Nat × String) :=
  let ind := countWhile isSpaceChar ln 0
  if occursAt "class".toList ln ind then
    let s1 := countWhile isSpaceChar ln (ind + 5)
    if s1 = 0 then none
    else
      let p := ind + 5 + s1
      let w := countWhile isWordChar ln p
      if w = 0 then none
      else
        let p2 := p + w
        let p3 :=
          let s2 := countWhile isSpaceChar ln p2
          if ln[p2 + s2]? = some '(' then
            let k := countWhile (fun c => isWordChar c || isSpaceChar c || c = ',')
              ln (p2 + s2 + 1)
            if ln[p2 + s2 + 1 + k]? = some ')' then p2 + s2 + 1 + k + 1 else p2
          else p2
        let s3 := countWhile isSpaceChar ln p3
        if ln[p3 + s3]? = some ':' then some (ind, (sub ln p (p + w)).asString)
        else none
  else none

/-- `PythonAnalyzer.find_class_name`: indentation-based innermost-class
lookup (the source keeps the last class line that starts before the
declaration at a strictly smaller indentation). -/
def pyFindClassName (content : List Char) (position : Nat) : Option String :=
  let before := sub content 0 position
  let lines := splitCh '\n' before
  let funcLineNo := before.count '\n'
  let funcIndent := countWhile isSpaceChar ((lines.getLast?).getD []) 0
  (lines.enum.filterMap
      (fun p => (matchPyClassLine p.2).map (fun q => (p.1, q.1, q.2)))).foldl
    (fun cur t =>
      if t.1 < funcLineNo ∧ t.2.1 < funcIndent then some t.2.2 else cur) none

/-- `content[pos-1]` with Python's negative-index wraparound at `pos = 0`. -/
def prevChar (l : List Char) (pos : Nat) : Option Char :=
  if pos = 0 then l[l.length - 1]? else l[pos - 1]?

/-- `PythonAnalyzer.count_function_lines`: `{`/`:` open a block, `}` or a
blank line (two consecutive newlines) closes one. -/
def pyCountLinesGo (l : List Char) : Nat → Nat → Int → Nat → Nat
  | 0, _, _, lc => lc
  | fuel + 1, pos, bracket, lc =>
    match l[pos]? with
    | none => lc
    | some c =>
      if c = '{' ∨ c = ':' then pyCountLinesGo l fuel (pos + 1) (bracket + 1) lc
      else if c = '}' ∨ (c = '\n' ∧ prevChar l pos = some '\n') then
        if bracket - 1 = 0 then lc else pyCountLinesGo l fuel (pos + 1) (bracket - 1) lc
      else if c = '\n' then pyCountLinesGo l fuel (pos + 1) bracket (lc + 1)
      else pyCountLinesGo l fuel (pos + 1) bracket lc

/-- Declared-line count for a Python declaration starting at `startPos`. -/
def pyCountFunctionLines (content : List Char) (startPos : Nat) : Nat :=
  pyCountLinesGo content (content.length + 1) startPos 0 1

/-- The `status` attached to a Python element. -/
def pyStatus (full : String) : String :=
  if pyFPPatterns.any (fun p => strContains full p) then "potential false positive"
  else ""

/-- The property loop of `PythonAnalyzer.analyze_file_content`. -/
def pyPropertyStep (content : List Char) (filename : String)
    (elements : Dict ElementInfo) (p : String × Nat) : Dict ElementInfo :=
  let fn := p.1
  if hasValidatorDeco content fn then elements
  else
    match pyFindClassName content p.2 with
    | none => elements
    | some cls =>
      let full := filename ++ "::" ++ cls ++ "::" ++ fn
      if dictHasKey elements full then elements
      else
        elements ++ [(full,
          { name := full, lines := pyCountFunctionLines content p.2,
            base_name := fn, class_name := some cls, type := "property",
            status := pyStatus full })]

/-- The regular-function loop of `PythonAnalyzer.analyze_file_content`. -/
def pyFunctionStep (content : List Char) (filename : String)
    (elements : Dict ElementInfo) (m : Nat × String × Nat) : Dict ElementInfo :=
  let fn := m.2.1
  if (dictHasKey (decoratedFns content) fn ∧ hasValidatorDeco content fn) ∨
      dictHasKey (propertyFns content) fn then elements
  else
    let cls := pyFindClassName content m.1
    let full :=
      match cls with
      | some c => filename ++ "::" ++ c ++ "::" ++ fn
      | none => filename ++ "::" ++ fn
    if dictHasKey elements full then elements
    else
      elements ++ [(full,
        { name := full, lines := pyCountFunctionLines content m.2.2,
          base_name := fn, class_name := cls,
          type := match cls with | some _ => "method" | none => "function",
          status := pyStatus full })]

/-- `PythonAnalyzer.analyze_file_content`. -/
def pythonAnalyzeFileContent (content : List Char) (filepath : String) :
    Dict ElementInfo :=
  let filename := pyModuleName filepath
  let elements := (propertyFns content).foldl (pyPropertyStep content filename) []
  (finditer matchPyDefAt content).foldl (pyFunctionStep content filename) elements

/-! ## Python usage matching (`PythonAnalyzer._get_patterns` / `check_usage`) -/

/-- Word boundary `\b` before a name that starts with a word character. -/
def wordBoundaryBefore (l : List Char) (i : Nat) : Bool :=
  match i with
  | 0 => true
  | j + 1 => match l[j]? with
    | some c => !(isWordChar c)
    | none => true

/-- Word boundary `\b` after a name that ends with a word character. -/
def wordBoundaryAfter (l : List Char) (p : Nat) : Bool :=
  match l[p]? with
  | some c => !(isWordChar c)
  | none => true

/-- The negative lookahead `(?!\s*\()`. -/
def noParenAhead (l : List Char) (p : Nat) : Bool :=
  let s := countWhile isSpaceChar l p
  !(l[p + s]? = some '(')

/-- `\s*\(` after position `p`; returns the position after the `(`. -/
def parenAfter (l : List Char) (p : Nat) : Option Nat :=
  let s := countWhile isSpaceChar l p
  if l[p + s]? = some '(' then some (p + s + 1) else none

/-- The negative lookbehind `(?<!def\s)` (fixed width 4). -/
def afterDefKw (l : List Char) (i : Nat) : Bool :=
  decide (4 ≤ i) && occursAt "def".toList l (i - 4) &&
    (match l[i - 1]? with | some c => isSpaceChar c | none => false)

/-- `self\.{f}\b(?!\s*\()`. -/
def mSelfAttr (f : List Char) : Matcher := fun l i =>
  if occursAt "self.".toList l i ∧ occursAt f l (i + 5) then
    let p := i + 5 + f.length
    if wordBoundaryAfter l p ∧ noParenAhead l p then some p else none
  else none

/-- `\w+\.{f}\b(?!\s*\()`. -/
def mRecvAttr (f : List Char) : Matcher := fun l i =>
  let w := countWhile isWordChar l i
  if w > 0 ∧ l[i + w]? = some '.' ∧ occursAt f l (i + w + 1) then
    let p := i + w + 1 + f.length
    if wordBoundaryAfter l p ∧ noParenAhead l p then some p else none
  else none

/-- `super\(\)\.{f}\b(?!\s*\()`. -/
def mSuperAttr (f : List Char) : Matcher := fun l i =>
  if occursAt "super().".toList l i ∧ occursAt f l (i + 8) then
    let p := i + 8 + f.length
    if wordBoundaryAfter l p ∧ noParenAhead l p then some p else none
  else none

/-- `\b{f}\b(?!\s*\()` — bare property reference. -/
def mBareAttr (f : List Char) : Matcher := fun l i =>
  if wordBoundaryBefore l i ∧ occursAt f l i then
    let p := i + f.length
    if wordBoundaryAfter l p ∧ noParenAhead l p then some p else none
  else none

/-- `self\.{f}\s*\(`. -/
def mSelfCall (f : List Char) : Matcher := fun l i =>
  if occursAt "self.".toList l i ∧ occursAt f l (i + 5) then
    parenAfter l (i + 5 + f.length)
  else none

/-- `\w+\.{f}\s*\(`. -/
def mRecvCall (f : List Char) : Matcher := fun l i =>
  let w := countWhile isWordChar l i
  if w > 0 ∧ l[i + w]? = some '.' ∧ occursAt f l (i + w + 1) then
    parenAfter l (i + w + 1 + f.length)
  else none

/-- `super\(\)\.{f}\s*\(`. -/
def mSuperCall (f : List Char) : Matcher := fun l i =>
  if occursAt "super().".toList l i ∧ occursAt f l (i + 8) then
    parenAfter l (i + 8 + f.length)
  else none

/-- `(?<!def\s)\b{f}\s*\(` — direct method reference. -/
def mDirectCallM (f : List Char) : Matcher := fun l i =>
  if afterDefKw l i then none
  else if wordBoundaryBefore l i ∧ occursAt f l i then parenAfter l (i + f.length)
  else none

/-- `(?<!def\s)(?<!\.)\b{f}\s*\(` — simple function call. -/
def mDirectCallF (f : List Char) : Matcher := fun l i =>
  if afterDefKw l i then none
  else if 1 ≤ i ∧ l[i - 1]? = some '.' then none
  else if wordBoundaryBefore l i ∧ occursAt f l i then parenAfter l (i + f.length)
  else none

/-- `=\s*{f}\s*\(`. -/
def mAssignCall (f : List Char) : Matcher := fun l i =>
  if l[i]? = some '=' then
    let s := countWhile isSpaceChar l (i + 1)
    if occursAt f l (i + 1 + s) then parenAfter l (i + 1 + s + f.length) else none
  else none

/-- `return\s+{f}\s*\(`. -/
def mReturnCall (f : List Char) : Matcher := fun l i =>
  if occursAt "return".toList l i then
    let s := countWhile isSpaceChar l (i + 6)
    if s > 0 ∧ occursAt f l (i + 6 + s) then parenAfter l (i + 6 + s + f.length)
    else none
  else none

/-- `[,(]\s*{f}\s*\(`. -/
def mArgHeadCall (f : List Char) : Matcher := fun l i =>
  if l[i]? = some ',' ∨ l[i]? = some '(' then
    let s := countWhile isSpaceChar l (i + 1)
    if occursAt f l (i + 1 + s) then parenAfter l (i + 1 + s + f.length) else none
  else none

/-- `\w+\([^)]*{f}[^)]*\)` — function passed as an argument.  The two
greedy `[^)]*` runs cannot cross a `)`, so the pattern matches exactly
when the maximal `)`-free segment after the `(` is closed by a `)` and
contains `f`. -/
def mCallArg (f : List Char) : Matcher := fun l i =>
  let w := countWhile isWordChar l i
  if w > 0 ∧ l[i + w]? = some '(' then
    let seg := countWhile (fun c => c != ')') l (i + w + 1)
    if l[i + w + 1 + seg]? = some ')' ∧ containsSub f (sub l (i + w + 1) (i + w + 1 + seg))
    then some (i + w + 1 + seg + 1)
    else none
  else none

/-- `from\s+{current_file}\s+import\s+{func_name}`. -/
def mFromImport (file f : List Char) : Matcher := fun l i =>
  if occursAt "from".toList l i then
    let s1 := countWhile isSpaceChar l (i + 4)
    if s1 > 0 ∧ occursAt file l (i + 4 + s1) then
      let p := i + 4 + s1 + file.length
      let s2 := countWhile isSpaceChar l p
      if s2 > 0 ∧ occursAt "import".toList l (p + s2) then
        let q := p + s2 + 6
        let s3 := countWhile isSpaceChar l q
        if s3 > 0 ∧ occursAt f l (q + s3) then some (q + s3 + f.length) else none
      else none
    else none
  else none

/-- `import\s+{current_file}\.{func_name}`. -/
def mImportDotted (file f : List Char) : Matcher := fun l i =>
  if occursAt "import".toList l i then
    let s := countWhile isSpaceChar l (i + 6)
    if s > 0 ∧ occursAt (file ++ ['.'] ++ f) l (i + 6 + s) then
      some (i + 6 + s + file.length + 1 + f.length)
    else none
  else none

/-- `base_patterns[element_info["type"]]` of `PythonAnalyzer._get_patterns`
(the source raises `KeyError` on any other type string; extraction only
produces the three keyed types). -/
def pyBasePatterns (f : List Char) : String → List Matcher
  | "property" => [mSelfAttr f, mRecvAttr f, mSuperAttr f, mBareAttr f]
  | "method" => [mSelfCall f, mRecvCall f, mSuperCall f, mDirectCallM f]
  | "function" =>
    [mDirectCallF f, mAssignCall f, mReturnCall f, mArgHeadCall f,
     mCallArg f, mRecvCall f]
  | _ => []

/-- `import_patterns[element_info["type"]]`. -/
def pyImportPatterns (file f : List Char) : String → List Matcher
  | "property" => [mFromImport file f]
  | "method" => [mFromImport file f]
  | "function" => [mFromImport file f, mImportDotted file f]
  | _ => []

/-- `PythonAnalyzer._get_patterns`. -/
def pyGetPatterns (info : ElementInfo) (isSameFile : Bool) : List Matcher :=
  let parts := splitParts info.name
  let current_file := (parts.getD 0 "")
  let func_name := ((parts.getLast?).getD "")
  pyBasePatterns func_name.toList info.type ++
    (if isSameFile then []
     else pyImportPatterns current_file.toList func_name.toList info.type)

/-- `PythonAnalyzer.check_usage` with the file's decoded content passed in
(`none` = undecodable; `""` is falsy). -/
def pythonCheckUsage (found : List String) (content? : Option String)
    (filepath : String) (info : ElementInfo) : Option String :=
  if found.any (fun s => s = info.name) then none
  else
    match content? with
    | none => none
    | some content =>
      if content = "" then none
      else
        let parts := splitParts info.name
        let isSame := (parts.getD 0 "") = pyModuleName filepath
        let total := ((pyGetPatterns info isSame).map
          (fun m => countMatches m content.toList)).sum
        if total > 0 then some info.name else none

/-! ## Scan orchestrator (`CodeAnalyzer.analyze`) -/

/-- A fixed filesystem snapshot: the two file classifications (as the
front end's `get_files` enumerates them) plus decoded contents
(`none` = every decoding attempt failed). -/
structure Snapshot where
  source_files : List String
  test_files : List String
  read_file : String → Option String

/-- Truthiness of the optional `limit` (`None` and `0` are falsy). -/
def limitTruthy : Option Int → Bool
  | none => false
  | some n => n != 0

/-- The integer value of the limit (only consulted when truthy). -/
def limitVal : Option Int → Int
  | none => 0
  | some n => n

/-- The COLLECTING phase: fold `elements.update(analyze_file_content(...))`
over the analysis files, skipping falsy (undecodable or empty) contents. -/
def collectElements (afc : String → String → Dict ElementInfo)
    (read : String → Option String) (files : List String) : Dict ElementInfo :=
  files.foldl
    (fun elements fp =>
      match read fp with
      | some content =>
        if content = "" then elements else dictUpdate elements (afc content fp)
      | none => elements)
    []

/-- The RESOLVING phase: visit each file; stop early when a truthy limit
already bounds the unresolved remainder; otherwise map `check_usage` over
the remainder and append the hits to the found-usage list. -/
def resolveUsage (cu : List String → String → ElementInfo → Option String)
    (elements : Dict ElementInfo) (limit : Option Int) :
    List String → List String → List String
  | [], found => found
  | fp :: rest, found =>
    if limitTruthy limit = true ∧
        (elements.length : Int) - (found.length : Int) ≤ limitVal limit then found
    else
      let remaining := (elements.filter
        (fun p => !(found.any (fun s => s = p.1)))).map (·.2)
      let results := remaining.map (fun e => cu found fp e)
      resolveUsage cu elements limit rest (found ++ results.filterMap id)

/-- The DONE phase's accumulation loop: emit a row for each element not in
the found-usage list, in index insertion order, breaking once a truthy
limit is reached (`unused_count` is threaded as `cnt`). -/
def collectUnused (found : List String) (limit : Option Int) :
    List (String × ElementInfo) → Int → List Row
  | [], _ => []
  | (name, info) :: rest, cnt =>
    if found.any (fun s => s = name) then collectUnused found limit rest cnt
    else
      let row : Row := (name, info.lines, 0, info.status)
      if limitTruthy limit = true ∧ cnt + 1 ≥ limitVal limit then [row]
      else row :: collectUnused found limit rest (cnt + 1)

/-- Stable insertion step of the final descending sort by `declaredLines`
(a later row passes every earlier row of strictly smaller line count and
stops at the first of greater-or-equal count, as Python's stable
`sort(key=..., reverse=True)` orders them). -/
def insertRow (x : Row) : List Row → List Row
  | [] => [x]
  | y :: ys => if rowLines y < rowLines x then x :: y :: ys else y :: insertRow x ys

/-- `results.sort(key=lambda x: x[1], reverse=True)`: stable descending
sort by line count. -/
def sortByLinesDesc (l : List Row) : List Row :=
  l.foldl (fun acc x => insertRow x acc) []

/-- The result list before the final sort. -/
def unsortedResults (afc : String → String → Dict ElementInfo)
    (cu : List String → String → ElementInfo → Option String)
    (snap : Snapshot) (limit : Option Int) : List Row :=
  let elements := collectElements afc snap.read_file snap.source_files
  let found := resolveUsage cu elements limit
    (snap.source_files ++ snap.test_files) []
  collectUnused found limit elements 0

/-- `CodeAnalyzer.analyze`, generic over the front end's extraction and
usage-check operations. -/
def analyze (afc : String → String → Dict ElementInfo)
    (cu : List String → String → ElementInfo → Option String)
    (snap : Snapshot) (limit : Option Int) : List Row :=
  sortByLinesDesc (unsortedResults afc cu snap limit)

/-- The PHP run: `PhpAnalyzer(directory).analyze(limit)` over a snapshot. -/
def phpAnalyze (snap : Snapshot) (limit : Option Int) : List Row :=
  analyze (fun c fp => phpAnalyzeFileContent c.toList fp)
    (fun found fp info => phpCheckUsage found (snap.read_file fp) info) snap limit

/-- The Python run: `PythonAnalyzer(directory).analyze(limit)` over a
snapshot. -/
def pythonAnalyze (snap : Snapshot) (limit : Option Int) : List Row :=
  analyze (fun c fp => pythonAnalyzeFileContent c.toList fp)
    (fun found fp info => pythonCheckUsage found (snap.read_file fp) fp info)
    snap limit

/-! ## Dictionary lemmas -/

theorem optOr_none_right (a : Option α) : optOr a none = a := by
  cases a <;> rfl

theorem optOr_assoc (a b c : Option α) :
    optOr (optOr a b) c = optOr a (optOr b c) := by
  cases a <;> cases b <;> rfl

theorem dictLookup_dictSet (d : Dict α) (k k' : String) (v : α) :
    dictLookup (dictSet d k v) k' =
      if k = k' then some v else dictLookup d k' := by
  induction d with
  | nil => simp [dictSet, dictLookup]
  | cons p d ih =>
    obtain ⟨k0, v0⟩ := p
    by_cases h0 : k0 = k
    · subst h0
      by_cases h1 : k0 = k'
      · subst h1; simp [dictSet, dictLookup]
      · simp [dictSet, dictLookup, h1]
    · by_cases h1 : k0 = k'
      · subst h1
        have hk : ¬ k = k0 := fun h => h0 h.symm
        simp [dictSet, dictLookup, h0, hk]
      · simp [dictSet, dictLookup, h0, h1, ih]

theorem dictLookup_dictUpdate (m : Dict α) :
    ∀ (d : Dict α) (k : String),
      dictLookup (dictUpdate d m) k =
        optOr (dictLookupLast m k) (dictLookup d k) := by
  induction m with
  | nil => intro d k; simp [dictUpdate, dictLookupLast, optOr]
  | cons p m ih =>
    intro d k
    obtain ⟨k0, v0⟩ := p
    have step : dictUpdate d ((k0, v0) :: m) = dictUpdate (dictSet d k0 v0) m := rfl
    rw [step, ih]
    show optOr (dictLookupLast m k) (dictLookup (dictSet d k0 v0) k) =
      optOr (dictLookupLast ((k0, v0) :: m) k) (dictLookup d k)
    cases hlast : dictLookupLast m k with
    | some r => simp [dictLookupLast, hlast, optOr]
    | none =>
      by_cases h0 : k0 = k
      · subst h0; simp [dictLookupLast, hlast, optOr, dictLookup_dictSet]
      · simp [dictLookupLast, hlast, optOr, dictLookup_dictSet, h0]

theorem dictLookupLast_mem {m : Dict α} {k : String} {v : α}
    (h : dictLookupLast m k = some v) : (k, v) ∈ m := by
  induction m with
  | nil => simp [dictLookupLast] at h
  | cons p m ih =>
    obtain ⟨k0, v0⟩ := p
    simp only [dictLookupLast] at h
    cases hlast : dictLookupLast m k with
    | some r =>
      rw [hlast] at h
      exact List.mem_cons_of_mem _ (ih (hlast.trans h))
    | none =>
      rw [hlast] at h
      by_cases h0 : k0 = k
      · subst h0
        simp at h
        subst h
        exact List.mem_cons_self _ _
      · simp [h0] at h

theorem dictHasKey_iff_lookup (d : Dict α) (k : String) :
    dictHasKey d k = true ↔ ∃ v, dictLookup d k = some v := by
  induction d with
  | nil => simp [dictHasKey, dictLookup]
  | cons p d ih =>
    obtain ⟨k0, v0⟩ := p
    by_cases h0 : k0 = k
    · subst h0; simp [dictHasKey, dictLookup]
    · simp [dictHasKey, dictLookup, h0, ih]

theorem anyEq_iff_mem (l : List String) (x : String) :
    (l.any (fun s => s = x)) = true ↔ x ∈ l := by
  simp

/-! ## Claim C1 — index overwrite semantics during COLLECTING -/

/-- The per-key contribution of the COLLECTING fold, read from the back:
later analysis files override earlier ones. -/
def collectLast (afc : String → String → Dict ElementInfo)
    (read : String → Option String) : List String → String → Option ElementInfo
  | [], _ => none
  | fp :: rest, k =>
    optOr (collectLast afc read rest k)
      (match read fp with
       | some c => if c = "" then none else dictLookupLast (afc c fp) k
       | none => none)

theorem collectElements_foldl_lookup (afc : String → String → Dict ElementInfo)
    (read : String → Option String) :
    ∀ (files : List String) (d : Dict ElementInfo) (k : String),
      dictLookup (files.foldl
        (fun elements fp =>
          match read fp with
          | some content =>
            if content = "" then elements else dictUpdate elements (afc content fp)
          | none => elements) d) k
      = optOr (collectLast afc read files k) (dictLookup d k) := by
  intro files
  induction files with
  | nil => intro d k; simp [collectLast, optOr]
  | cons fp rest ih =>
    intro d k
    rw [List.foldl_cons, ih]
    show optOr (collectLast afc read rest k) _ = _
    cases hread : read fp with
    | none => simp [collectLast, hread, optOr_none_right, optOr_assoc]
    | some c =>
      by_cases hc : c = ""
      · simp [collectLast, hread, hc, optOr_none_right, optOr_assoc]
      · simp [collectLast, hread, hc, dictLookup_dictUpdate, optOr_assoc]

/-- First file of the C1 scenario: `Foo::bar` spanning 3 lines. -/
def c1ContentA : String := "class Foo \x7b\nfunction bar()\n\x7b\n\x7d\n\x7d\n"

/-- Second file of the C1 scenario: the same qualified name `Foo::bar`,
spanning 4 lines. -/
def c1ContentB : String := "class Foo \x7b\nfunction bar()\n\x7b\n\n\x7d\n\x7d\n"

/-- Snapshot reads for the C1 scenario. -/
def c1Read : String → Option String := fun p =>
  if p = "a.php" then some c1ContentA
  else if p = "b.php" then some c1ContentB
  else none

/-- The Declaration Index the COLLECTING phase builds over the two files. -/
def c1Index : Dict ElementInfo :=
  collectElements (fun c fp => phpAnalyzeFileContent c.toList fp) c1Read
    ["a.php", "b.php"]

/-- C1: refuted.  The earliest analysis file (`a.php`) extracts `Foo::bar`
with 3 declared lines, but the final Declaration Index holds the element
extracted from the later file `b.php` (4 lines): `dict.update` overwrites
on a key collision, so the entry inserted during the first file's merge
does not survive. -/
theorem C1_counterexample :
    (dictLookup (phpAnalyzeFileContent c1ContentA.toList "a.php") "Foo::bar").map
        (fun e => e.lines) = some 3 ∧
    (dictLookup c1Index "Foo::bar").map (fun e => e.lines) = some 4 := by
  constructor
  · rfl
  · rfl

/-- C1 (amended): for every qualified name, the element in the final
Declaration Index is the one contributed by the *latest* analysis file (in
enumeration order) whose extraction output declares that name — later
files overwrite earlier entries; within one file the extractor itself
keeps the first declaration. -/
theorem C1_amended_last_writer_wins (afc : String → String → Dict ElementInfo)
    (read : String → Option String) (files : List String) (k : String) :
    dictLookup (collectElements afc read files) k = collectLast afc read files k := by
  have h := collectElements_foldl_lookup afc read files [] k
  simpa [collectElements, dictLookup, optOr_none_right] using h

/-! ## Claim C2 — static attributes are never extracted -/

/-- The corpus of the repository's own `test_static_attribute` test, with
an unreferenced static attribute `$unusedAttr`. -/
def c2Content : String :=
  "class TestClass \x7b\npublic static string $unusedAttr = 1;\npublic static string $usedAttr = 2;\n\npublic function someMethod() \x7b\nreturn self::$usedAttr;\n\x7d\n\x7d\n"

set_option maxRecDepth 100000 in
/-- C2: the PHP extractor only ever emits `function`-typed elements; on
the static-attribute corpus the extraction output is exactly the method,
and `TestClass::$unusedAttr` never enters the Declaration Index (so it can
never be reported with status `static attribute`), although
`check_usage` carries a dead static-attribute branch and the repository's
test `test_static_attribute` expects `TestClass::$unusedAttr` to be
reported. -/
theorem C2_code_bug_static_attribute_never_reported :
    ((phpAnalyzeFileContent c2Content.toList "test5.php").map (fun p => p.1)
      = ["TestClass::someMethod"]) ∧
    dictHasKey (phpAnalyzeFileContent c2Content.toList "test5.php")
      "TestClass::$unusedAttr" = false ∧
    ((phpAnalyzeFileContent c2Content.toList "test5.php").all
      (fun p => p.2.type = "function")) = true := by
  exact ⟨rfl, rfl, rfl⟩

/-! ## Structural facts about the Python extractor -/

theorem hasValidatorDeco_hasKey (content : List Char) (fn : String)
    (h : hasValidatorDeco content fn = true) :
    dictHasKey (decoratedFns content) fn = true := by
  unfold hasValidatorDeco at h
  cases hl : dictLookup (decoratedFns content) fn with
  | none => rw [hl] at h; simp at h
  | some l => exact (dictHasKey_iff_lookup _ _).mpr ⟨l, hl⟩

/-- Invariant preservation along the extraction folds. -/
theorem foldl_step_pres {β : Type _} (step : Dict ElementInfo → β → Dict ElementInfo)
    (P : String × ElementInfo → Prop)
    (hstep : ∀ acc b p, p ∈ step acc b → p ∈ acc ∨ P p) :
    ∀ (ms : List β) (acc : Dict ElementInfo), (∀ p ∈ acc, P p) →
      ∀ p ∈ ms.foldl step acc, P p := by
  intro ms
  induction ms with
  | nil => intro acc hacc p hp; exact hacc p hp
  | cons b ms ih =>
    intro acc hacc p hp
    refine ih (step acc b) ?_ p hp
    intro q hq
    rcases hstep acc b q hq with h | h
    · exact hacc q h
    · exact h

/-- The shape every element extracted by the Python front end has: its
stored name is its key; its key is prefixed by the module scope; its type
is one of the three keyed kinds; its base name has no recorded validator
decorator; and a non-property element's base name is not
property-decorated. -/
def ShapeP (content : List Char) (filepath : String) (p : String × ElementInfo) :
    Prop :=
  p.2.name = p.1 ∧
  (∃ r, p.1 = pyModuleName filepath ++ "::" ++ r) ∧
  (p.2.type = "property" ∨ p.2.type = "method" ∨ p.2.type = "function") ∧
  hasValidatorDeco content p.2.base_name = false ∧
  (p.2.type = "property" ∨ dictHasKey (propertyFns content) p.2.base_name = false)

theorem strAppend_assoc (a b c : String) : (a ++ b) ++ c = a ++ (b ++ c) :=
  String.append_assoc a b c

theorem pyPropertyStep_shape (content : List Char) (filepath : String)
    (acc : Dict ElementInfo) (pr : String × Nat) (p : String × ElementInfo)
    (hp : p ∈ pyPropertyStep content (pyModuleName filepath) acc pr) :
    p ∈ acc ∨ ShapeP content filepath p := by
  simp only [pyPropertyStep] at hp
  by_cases hv : hasValidatorDeco content pr.1 = true
  · rw [if_pos hv] at hp; exact Or.inl hp
  · rw [if_neg hv] at hp
    cases hcls : pyFindClassName content pr.2 with
    | none => simp only [hcls] at hp; exact Or.inl hp
    | some cls =>
      simp only [hcls] at hp
      by_cases hk : dictHasKey acc (pyModuleName filepath ++ "::" ++ cls ++ "::" ++ pr.1) = true
      · rw [if_pos hk] at hp; exact Or.inl hp
      · rw [if_neg hk] at hp
        rcases List.mem_append.mp hp with h | h
        · exact Or.inl h
        · right
          simp only [List.mem_singleton] at h
          subst h
          refine ⟨rfl, ⟨cls ++ "::" ++ pr.1, ?_⟩, Or.inl rfl, ?_, Or.inl rfl⟩
          · rw [← strAppend_assoc, ← strAppend_assoc]
          · simpa using hv

theorem pyFunctionStep_shape (content : List Char) (filepath : String)
    (acc : Dict ElementInfo) (m : Nat × String × Nat) (p : String × ElementInfo)
    (hp : p ∈ pyFunctionStep content (pyModuleName filepath) acc m) :
    p ∈ acc ∨ ShapeP content filepath p := by
  simp only [pyFunctionStep] at hp
  by_cases hg : (dictHasKey (decoratedFns content) m.2.1 = true ∧
      hasValidatorDeco content m.2.1 = true) ∨
      dictHasKey (propertyFns content) m.2.1 = true
  · rw [if_pos hg] at hp; exact Or.inl hp
  · rw [if_neg hg] at hp
    push_neg at hg
    obtain ⟨hg1, hg2⟩ := hg
    have hval : hasValidatorDeco content m.2.1 = false := by
      by_cases h : hasValidatorDeco content m.2.1 = true
      · exact absurd h (hg1 (hasValidatorDeco_hasKey content m.2.1 h))
      · simpa using h
    have hprop : dictHasKey (propertyFns content) m.2.1 = false := by
      simpa using hg2
    cases hcls : pyFindClassName content m.1 with
    | none =>
      simp only [hcls] at hp
      by_cases hk : dictHasKey acc (pyModuleName filepath ++ "::" ++ m.2.1) = true
      · rw [if_pos hk] at hp; exact Or.inl hp
      · rw [if_neg hk] at hp
        rcases List.mem_append.mp hp with h | h
        · exact Or.inl h
        · right
          simp only [List.mem_singleton] at h
          subst h
          exact ⟨rfl, ⟨m.2.1, rfl⟩, Or.inr (Or.inr rfl), hval, Or.inr hprop⟩
    | some cls =>
      simp only [hcls] at hp
      by_cases hk : dictHasKey acc (pyModuleName filepath ++ "::" ++ cls ++ "::" ++ m.2.1) = true
      · rw [if_pos hk] at hp; exact Or.inl hp
      · rw [if_neg hk] at hp
        rcases List.mem_append.mp hp with h | h
        · exact Or.inl h
        · right
          simp only [List.mem_singleton] at h
          subst h
          refine ⟨rfl, ⟨cls ++ "::" ++ m.2.1, ?_⟩, Or.inr (Or.inl rfl), hval, Or.inr hprop⟩
          rw [← strAppend_assoc, ← strAppend_assoc]

/-- Every element the Python extractor produces satisfies `ShapeP`. -/
theorem pyAFC_mem_shape (content : List Char) (filepath : String)
    (p : String × ElementInfo)
    (hp : p ∈ pythonAnalyzeFileContent content filepath) :
    ShapeP content filepath p := by
  simp only [pythonAnalyzeFileContent] at hp
  refine foldl_step_pres _ _ (pyFunctionStep_shape content filepath) _ _ ?_ p hp
  intro q hq
  exact foldl_step_pres _ _ (pyPropertyStep_shape content filepath) _ _
    (by intro q hq; cases hq) q hq

/-! ## Claim C4 — validator-decorated declarations -/

/-- No extracted element has this base name. -/
def noBaseNamed (d : Dict ElementInfo) (f : String) : Bool :=
  d.all (fun p => p.2.base_name != f)

/-- A Python file in which `foo`'s decorator stack is
`@classmethod` over `@my_validator`: the validator sits at the second
position of the stack. -/
def c4Content : String :=
  "class C:\n    @classmethod\n    @my_validator\n    def foo(self):\n        return 1\n"

set_option maxRecDepth 100000 in
/-- C4: refuted.  The decorator scan records only the first (outermost)
decorator of each stack (`decorated_functions` maps `foo` to
`["classmethod"]` here), so a validator decorator at a lower stack
position is not seen and `test::C::foo` does enter the Declaration
Index. -/
theorem C4_counterexample :
    (dictLookup (decoratedFns c4Content.toList) "foo" = some ["classmethod"]) ∧
    dictHasKey (pythonAnalyzeFileContent c4Content.toList "test.py")
      "test::C::foo" = true := by
  exact ⟨rfl, rfl⟩

/-- C4 (amended): a Python declaration is excluded at extraction when the
*outermost* decorator name of one of its recorded decorator stacks
contains the fragment `"validator"` case-insensitively (lower stack
positions are never recorded by the scan): under that condition no element
with this base name enters the Declaration Index. -/
theorem C4_amended_outermost_validator_excluded (content : List Char)
    (filepath : String) (f : String)
    (hv : hasValidatorDeco content f = true) :
    noBaseNamed (pythonAnalyzeFileContent content filepath) f = true := by
  rw [noBaseNamed, List.all_eq_true]
  intro p hp
  have hshape := pyAFC_mem_shape content filepath p hp
  rcases hshape with ⟨-, -, -, hval, -⟩
  rw [bne_iff_ne]
  intro hf
  rw [hf] at hval
  rw [hval] at hv
  cases hv

/-- A module whose only `def` carries a validator decorator on top. -/
def c4Witness : String := "@my_validator\ndef g():\n    return 1\n"

set_option maxRecDepth 100000 in
/-- Witness for the amended C4 at a concrete file. -/
theorem C4_amended_witness :
    hasValidatorDeco c4Witness.toList "g" = true ∧
    noBaseNamed (pythonAnalyzeFileContent c4Witness.toList "m.py") "g" = true :=
  ⟨by decide, C4_amended_outermost_validator_excluded c4Witness.toList "m.py" "g"
    (by decide)⟩

/-! ## Claim C5 — hierarchical qualified names -/

/-- A PHP file declaring a free function `foo`. -/
def c5Content : String := "function foo()\n\x7b\n\x7d\n"

set_option maxRecDepth 100000 in
/-- C5: refuted.  The PHP front end's qualified names carry no file
scope: the same content extracted under two different file paths yields
the identical single-segment key `foo`, so same-named declarations in
different PHP files collide on one index key. -/
theorem C5_counterexample :
    ((phpAnalyzeFileContent c5Content.toList "dir/a.php").map (fun p => p.1)
      = ["foo"]) ∧
    ((phpAnalyzeFileContent c5Content.toList "dir/b.php").map (fun p => p.1)
      = ["foo"]) ∧
    containsSub "::".toList "foo".toList = false := by
  exact ⟨rfl, rfl, rfl⟩

/-- C5 (amended): only the Python front end prefixes qualified names with
the declaring file's scope (`file::[class::]name`); the PHP front end
ignores the file path entirely (`Class::name` or a bare name), so PHP
declarations of the same name in different files share an index key. -/
theorem C5_amended_file_scope_python_only :
    (∀ (content : List Char) (fp1 fp2 : String),
      phpAnalyzeFileContent content fp1 = phpAnalyzeFileContent content fp2) ∧
    (∀ (content : List Char) (filepath : String) (p : String × ElementInfo),
      p ∈ pythonAnalyzeFileContent content filepath →
      ∃ r, p.1 = pyModuleName filepath ++ "::" ++ r) :=
  ⟨fun _ _ _ => rfl,
   fun content filepath p hp => (pyAFC_mem_shape content filepath p hp).2.1⟩

/-! ## Claim C9 — bare-name keying of property-decorated functions -/

/-- No extracted element of kind method/function has this base name. -/
def methodFreeOf (d : Dict ElementInfo) (f : String) : Bool :=
  d.all (fun p =>
    !(p.2.base_name = f && (p.2.type = "method" || p.2.type = "function")))

/-- C9: whenever some function name in a file is property-decorated, no
`def` of that bare name anywhere in the same file is extracted as a
method or function — extraction of the name is monopolised by the
property entry, whatever class the other `def` belongs to. -/
theorem C9_property_name_shadows_defs (content : List Char) (filepath : String)
    (f : String) (hf : dictHasKey (propertyFns content) f = true) :
    methodFreeOf (pythonAnalyzeFileContent content filepath) f = true := by
  rw [methodFreeOf, List.all_eq_true]
  intro p hp
  have hshape := pyAFC_mem_shape content filepath p hp
  rcases hshape with ⟨-, -, -, -, hprop⟩
  simp only [Bool.not_eq_true', Bool.and_eq_false_iff]
  by_cases hb : p.2.base_name = f
  · rcases hprop with hty | hkey
    · right
      rw [Bool.or_eq_false_iff]
      constructor <;> · simp [hty]
    · rw [hb] at hkey
      rw [hkey] at hf
      cases hf
  · left
    simpa using hb

/-- A file where class `A` has `@property def name` and class `B` has an
unrelated plain `def name`. -/
def c9Content : String :=
  "class A:\n    @property\n    def name(self):\n        return 1\nclass B:\n    def name(self):\n        return 2\n"

set_option maxRecDepth 400000 in
/-- Witness for C9 at a concrete file: `name` is property-decorated, and
the extraction holds no method/function element called `name` (in
particular `B`'s method vanishes; only `f::A::name` exists). -/
theorem C9_witness :
    dictHasKey (propertyFns c9Content.toList) "name" = true ∧
    methodFreeOf (pythonAnalyzeFileContent c9Content.toList "f.py") "name" = true :=
  ⟨by decide, C9_property_name_shadows_defs c9Content.toList "f.py" "name"
    (by decide)⟩

/-! ## Sorting lemmas -/

theorem mem_insertRow (x : Row) (l : List Row) (a : Row) :
    a ∈ insertRow x l ↔ a = x ∨ a ∈ l := by
  induction l with
  | nil => simp [insertRow]
  | cons y ys ih =>
    by_cases h : rowLines y < rowLines x
    · simp [insertRow, h]
    · simp only [insertRow, if_neg h, List.mem_cons, ih]
      tauto

theorem length_insertRow (x : Row) (l : List Row) :
    (insertRow x l).length = l.length + 1 := by
  induction l with
  | nil => rfl
  | cons y ys ih =>
    by_cases h : rowLines y < rowLines x
    · simp [insertRow, h]
    · simp [insertRow, h, ih]

theorem sorted_insertRow (x : Row) (l : List Row)
    (h : l.Pairwise (fun a b => rowLines b ≤ rowLines a)) :
    (insertRow x l).Pairwise (fun a b => rowLines b ≤ rowLines a) := by
  induction l with
  | nil => simp [insertRow]
  | cons y ys ih =>
    rcases List.pairwise_cons.mp h with ⟨hy, hys⟩
    by_cases hlt : rowLines y < rowLines x
    · rw [insertRow, if_pos hlt]
      refine List.pairwise_cons.mpr ⟨?_, h⟩
      intro b hb
      rcases List.mem_cons.mp hb with rfl | hb
      · exact Nat.le_of_lt hlt
      · exact Nat.le_trans (hy b hb) (Nat.le_of_lt hlt)
    · rw [insertRow, if_neg hlt]
      refine List.pairwise_cons.mpr ⟨?_, ih hys⟩
      intro b hb
      rcases (mem_insertRow x ys b).mp hb with rfl | hb
      · exact Nat.le_of_not_lt hlt
      · exact hy b hb

theorem filter_insertRow (x : Row) (l : List Row) (n : Nat)
    (hs : l.Pairwise (fun a b => rowLines b ≤ rowLines a)) :
    (insertRow x l).filter (fun r => rowLines r = n) =
      (l ++ [x]).filter (fun r => rowLines r = n) := by
  induction l with
  | nil => simp [insertRow]
  | cons y ys ih =>
    rcases List.pairwise_cons.mp hs with ⟨hy, hys⟩
    by_cases hlt : rowLines y < rowLines x
    · rw [insertRow, if_pos hlt]
      by_cases hx : rowLines x = n
      · have hall : ∀ b ∈ y :: ys, ¬(rowLines b = n) := by
          intro b hb
          rcases List.mem_cons.mp hb with rfl | hb
          · exact fun hbn => absurd (hbn ▸ hlt) (by rw [hx]; exact Nat.lt_irrefl n)
          · intro hbn
            have h1 : rowLines b ≤ rowLines y := hy b hb
            have h2 : rowLines b < rowLines x := Nat.lt_of_le_of_lt h1 hlt
            rw [hbn, hx] at h2
            exact Nat.lt_irrefl n h2
        have hyn : ¬(rowLines y = n) := hall y (List.mem_cons_self y ys)
        have hysnil : ys.filter (fun r => rowLines r = n) = [] := by
          rw [List.filter_eq_nil_iff]
          intro b hb
          simpa using hall b (List.mem_cons_of_mem y hb)
        simp [List.filter_cons, List.filter_append, hx, hyn, hysnil]
      · simp [List.filter_cons, List.filter_append, hx]
    · rw [insertRow, if_neg hlt]
      simp only [List.cons_append, List.filter_cons, ih hys]

theorem sortByLinesDesc_foldl_sorted (l : List Row) :
    ∀ acc : List Row, acc.Pairwise (fun a b => rowLines b ≤ rowLines a) →
      (l.foldl (fun acc x => insertRow x acc) acc).Pairwise
        (fun a b => rowLines b ≤ rowLines a) := by
  induction l with
  | nil => intro acc hacc; exact hacc
  | cons x l ih =>
    intro acc hacc
    exact ih (insertRow x acc) (sorted_insertRow x acc hacc)

theorem sorted_sortByLinesDesc (l : List Row) :
    (sortByLinesDesc l).Pairwise (fun a b => rowLines b ≤ rowLines a) :=
  sortByLinesDesc_foldl_sorted l [] (List.Pairwise.nil)

theorem filter_sortByLinesDesc_aux (n : Nat) (l : List Row) :
    ∀ acc : List Row, acc.Pairwise (fun a b => rowLines b ≤ rowLines a) →
      (l.foldl (fun acc x => insertRow x acc) acc).filter
          (fun r => rowLines r = n) =
        acc.filter (fun r => rowLines r = n) ++ l.filter (fun r => rowLines r = n) := by
  induction l with
  | nil => intro acc hacc; simp
  | cons x l ih =>
    intro acc hacc
    rw [List.foldl_cons, ih (insertRow x acc) (sorted_insertRow x acc hacc),
      filter_insertRow x acc n hacc, List.filter_append, List.filter_cons]
    by_cases hx : rowLines x = n
    · simp [hx, List.append_assoc]
    · simp [hx]

theorem filter_sortByLinesDesc (l : List Row) (n : Nat) :
    (sortByLinesDesc l).filter (fun r => rowLines r = n) =
      l.filter (fun r => rowLines r = n) := by
  have h := filter_sortByLinesDesc_aux n l [] (List.Pairwise.nil)
  simpa [sortByLinesDesc] using h

theorem mem_sortByLinesDesc_aux (a : Row) (l : List Row) :
    ∀ acc : List Row,
      (a ∈ l.foldl (fun acc x => insertRow x acc) acc ↔ a ∈ acc ∨ a ∈ l) := by
  induction l with
  | nil => intro acc; simp
  | cons x l ih =>
    intro acc
    rw [List.foldl_cons, ih (insertRow x acc)]
    rw [mem_insertRow]
    simp only [List.mem_cons]
    tauto

theorem mem_sortByLinesDesc (a : Row) (l : List Row) :
    a ∈ sortByLinesDesc l ↔ a ∈ l := by
  have h := mem_sortByLinesDesc_aux a l []
  simpa [sortByLinesDesc] using h

theorem length_sortByLinesDesc_aux (l : List Row) :
    ∀ acc : List Row,
      (l.foldl (fun acc x => insertRow x acc) acc).length = acc.length + l.length := by
  induction l with
  | nil => intro acc; simp
  | cons x l ih =>
    intro acc
    rw [List.foldl_cons, ih (insertRow x acc), length_insertRow]
    simp only [List.length_cons]
    omega

theorem length_sortByLinesDesc (l : List Row) :
    (sortByLinesDesc l).length = l.length := by
  have h := length_sortByLinesDesc_aux l []
  simpa [sortByLinesDesc] using h

/-! ## Claim C3 — ordering and truncation of the emitted results -/

/-- One analysis file declaring two unused functions: `aa` (3 lines,
inserted first) and `bb` (5 lines, inserted second). -/
def c3Content : String := "function aa()\n\x7b\n\x7d\nfunction bb()\n\x7b\n\n\n\x7d\n"

/-- Snapshot for the C3 scenario. -/
def snapC3 : Snapshot :=
  ⟨["t.php"], [], fun p => if p = "t.php" then some c3Content else none⟩

set_option maxRecDepth 400000 in
/-- C3: refuted on its truncation half.  With limit 1 (and no early exit:
two candidates remain against limit 1) the run emits the first unresolved
element in insertion order — `aa` with only 3 lines — whereas the first
entry of the full sorted list is `bb` with 5 lines: the source truncates
(`break` in the accumulation loop) *before* `results.sort`. -/
theorem C3_counterexample :
    phpAnalyze snapC3 (some 1) = [("aa", 3, 0, "")] ∧
    (phpAnalyze snapC3 none).take 1 = [("bb", 5, 0, "")] ∧
    phpAnalyze snapC3 (some 1) ≠ (phpAnalyze snapC3 none).take 1 := by
  refine ⟨rfl, rfl, ?_⟩
  intro h
  exact absurd ((rfl : phpAnalyze snapC3 (some 1) = [("aa", 3, 0, "")]).symm.trans
    (h.trans (rfl : (phpAnalyze snapC3 none).take 1 = [("bb", 5, 0, "")])))
    (by decide)

/-- C3 (amended): the emitted list is sorted descending by
`declaredLines`, and for every line count the emitted rows of that count
are exactly, and in the same order as, those of the *pre-sort* list — the
first (up to) L unresolved entries in index insertion order.  Truncation
to L entries thus happens before sorting, not after. -/
theorem C3_amended_sorted_truncate_before_sort
    (afc : String → String → Dict ElementInfo)
    (cu : List String → String → ElementInfo → Option String)
    (snap : Snapshot) (limit : Option Int) :
    (analyze afc cu snap limit).Pairwise (fun a b => rowLines b ≤ rowLines a) ∧
    ∀ n : Nat, (analyze afc cu snap limit).filter (fun r => rowLines r = n) =
      (unsortedResults afc cu snap limit).filter (fun r => rowLines r = n) :=
  ⟨sorted_sortByLinesDesc _, fun n => filter_sortByLinesDesc _ n⟩

/-! ## Claim C7 — a positive limit bounds the emitted result count -/

theorem collectUnused_length_le (found : List String) (L : Int) (hL : 0 < L) :
    ∀ (elements : List (String × ElementInfo)) (cnt : Int), cnt < L →
      ((collectUnused found (some L) elements cnt).length : Int) ≤ L - cnt := by
  intro elements
  induction elements with
  | nil => intro cnt hcnt; simp [collectUnused]; omega
  | cons e rest ih =>
    intro cnt hcnt
    obtain ⟨name, info⟩ := e
    by_cases hf : (found.any (fun s => s = name)) = true
    · rw [collectUnused, if_pos hf]
      exact ih cnt hcnt
    · rw [collectUnused, if_neg hf]
      by_cases hbr : limitTruthy (some L) = true ∧ cnt + 1 ≥ limitVal (some L)
      · rw [if_pos hbr]
        simp only [List.length_cons, List.length_nil]
        omega
      · rw [if_neg hbr]
        simp only [List.length_cons]
        have hlt : cnt + 1 < L := by
          rcases not_and_or.mp hbr with h | h
          · exfalso
            apply h
            simp only [limitTruthy, bne_iff_ne, ne_eq]
            omega
          · simp only [limitVal] at h
            omega
        clear hbr
        have := ih (cnt + 1) hlt
        push_cast
        push_cast at this
        omega

/-- C7: with a configured positive limit L, the emitted result list has at
most L entries. -/
theorem C7_limit_bounds_results (afc : String → String → Dict ElementInfo)
    (cu : List String → String → ElementInfo → Option String)
    (snap : Snapshot) (L : Int) (hL : 0 < L) :
    ((analyze afc cu snap (some L)).length : Int) ≤ L := by
  rw [analyze, length_sortByLinesDesc, unsortedResults]
  have h := collectUnused_length_le
    (resolveUsage cu (collectElements afc snap.read_file snap.source_files) (some L)
      (snap.source_files ++ snap.test_files) [])
    L hL (collectElements afc snap.read_file snap.source_files) 0 hL
  omega

/-- Snapshot used for the concrete witnesses of C7 and C8. -/
def snapW : Snapshot :=
  ⟨["w.py"], [], fun p => if p = "w.py" then some "def lone():\n    pass\n" else none⟩

set_option maxRecDepth 400000 in
/-- Witness for C7 at a concrete run. -/
theorem C7_witness :
    (0 : Int) < 1 ∧
    ((analyze (fun c fp => pythonAnalyzeFileContent c.toList fp)
      (fun found fp info => pythonCheckUsage found (snapW.read_file fp) fp info)
      snapW (some 1)).length : Int) ≤ 1 :=
  ⟨by decide,
   C7_limit_bounds_results (fun c fp => pythonAnalyzeFileContent c.toList fp)
     (fun found fp info => pythonCheckUsage found (snapW.read_file fp) fp info)
     snapW 1 (by decide)⟩

/-! ## Claim C8 — determinism over a fixed snapshot -/

/-- C8: the whole pipeline is a pure function of the snapshot and the
configuration: two runs over equal snapshots produce identical result
lists (same rows, same `declaredLines`, same relative order — in
particular among rows of equal line count). -/
theorem C8_two_runs_identical (s1 s2 : Snapshot) (limit : Option Int)
    (h : s1 = s2) :
    phpAnalyze s1 limit = phpAnalyze s2 limit ∧
    pythonAnalyze s1 limit = pythonAnalyze s2 limit := by
  subst h
  exact ⟨rfl, rfl⟩

/-- Witness for C8 at a concrete snapshot. -/
theorem C8_witness :
    phpAnalyze snapW none = phpAnalyze snapW none ∧
    pythonAnalyze snapW none = pythonAnalyze snapW none :=
  C8_two_runs_identical snapW snapW none rfl

/-! ## Claim C6 — cross-file import evidence -/

theorem dictLookup_mem {d : Dict α} {k : String} {v : α}
    (h : dictLookup d k = some v) : (k, v) ∈ d := by
  induction d with
  | nil => simp [dictLookup] at h
  | cons p d ih =>
    obtain ⟨k0, v0⟩ := p
    rw [dictLookup] at h
    by_cases h0 : k0 = k
    · rw [if_pos h0] at h
      subst h0
      cases h
      exact List.mem_cons_self _ _
    · rw [if_neg h0] at h
      exact List.mem_cons_of_mem _ (ih h)

theorem collectLast_mem (afc : String → String → Dict ElementInfo)
    (read : String → Option String) :
    ∀ (files : List String) (k : String) (v : ElementInfo),
      collectLast afc read files k = some v →
      ∃ fp c, read fp = some c ∧ c ≠ "" ∧ (k, v) ∈ afc c fp := by
  intro files
  induction files with
  | nil => intro k v h; simp [collectLast] at h
  | cons fp rest ih =>
    intro k v h
    rw [collectLast] at h
    cases hrest : collectLast afc read rest k with
    | some r =>
      rw [hrest] at h
      cases h
      exact ih k _ hrest
    | none =>
      rw [hrest] at h
      simp only [optOr] at h
      cases hread : read fp with
      | none => simp only [hread] at h; cases h
      | some c =>
        simp only [hread] at h
        by_cases hc : c = ""
        · rw [if_pos hc] at h; cases h
        · rw [if_neg hc] at h
          exact ⟨fp, c, hread, hc, dictLookupLast_mem h⟩

theorem resolveUsage_mono
    (cu : List String → String → ElementInfo → Option String)
    (elements : Dict ElementInfo) (limit : Option Int) :
    ∀ (files : List String) (found : List String) (s : String), s ∈ found →
      s ∈ resolveUsage cu elements limit files found := by
  intro files
  induction files with
  | nil => intro found s hs; exact hs
  | cons fp rest ih =>
    intro found s hs
    rw [resolveUsage]
    split
    · exact hs
    · exact ih _ s (List.mem_append_left _ hs)

theorem resolveUsage_hit
    (cu : List String → String → ElementInfo → Option String)
    (elements : Dict ElementInfo) (name : String) (info : ElementInfo)
    (fp : String) (hmem : (name, info) ∈ elements)
    (hcu : ∀ found : List String, name ∉ found → cu found fp info = some name) :
    ∀ (files : List String) (found : List String), fp ∈ files →
      name ∈ resolveUsage cu elements none files found := by
  intro files
  induction files with
  | nil => intro found hfp; cases hfp
  | cons fp' rest ih =>
    intro found hfp
    rw [resolveUsage]
    have hcond : ¬(limitTruthy (none : Option Int) = true ∧
        (elements.length : Int) - (found.length : Int) ≤ limitVal none) := by
      simp [limitTruthy]
    rw [if_neg hcond]
    rcases List.mem_cons.mp hfp with heq | hfp'
    · subst heq
      by_cases hin : name ∈ found
      · exact resolveUsage_mono cu elements none rest _ name
          (List.mem_append_left _ hin)
      · have hany : (found.any (fun s => s = name)) = false := by
          cases hq : found.any (fun s => s = name) with
          | false => rfl
          | true => exact absurd ((anyEq_iff_mem found name).mp hq) hin
        have hrem : info ∈ (elements.filter
            (fun p => !(found.any (fun s => s = p.1)))).map (·.2) := by
          refine List.mem_map.mpr ⟨(name, info), ?_, rfl⟩
          refine List.mem_filter.mpr ⟨hmem, ?_⟩
          simp only [hany, Bool.not_false]
        have hres : (some name) ∈ (((elements.filter
            (fun p => !(found.any (fun s => s = p.1)))).map (·.2)).map
              (fun e => cu found fp e)) := by
          rw [← hcu found hin]
          exact List.mem_map_of_mem _ hrem
        have hfound' : name ∈ found ++ (((elements.filter
            (fun p => !(found.any (fun s => s = p.1)))).map (·.2)).map
              (fun e => cu found fp e)).filterMap id := by
          refine List.mem_append_right _ ?_
          exact List.mem_filterMap.mpr ⟨some name, hres, rfl⟩
        exact resolveUsage_mono cu elements none rest _ name hfound'
    · exact ih _ hfp'

theorem collectUnused_not_found (found : List String) (limit : Option Int) :
    ∀ (elements : List (String × ElementInfo)) (cnt : Int) (row : Row),
      row ∈ collectUnused found limit elements cnt → row.1 ∉ found := by
  intro elements
  induction elements with
  | nil => intro cnt row hrow; cases hrow
  | cons e rest ih =>
    intro cnt row hrow
    obtain ⟨name, info⟩ := e
    rw [collectUnused] at hrow
    by_cases hf : (found.any (fun s => s = name)) = true
    · rw [if_pos hf] at hrow
      exact ih cnt row hrow
    · rw [if_neg hf] at hrow
      have hname : name ∉ found := fun h =>
        hf ((anyEq_iff_mem found name).mpr h)
      split at hrow
      · simp only [List.mem_singleton] at hrow
        subst hrow
        exact hname
      · rcases List.mem_cons.mp hrow with heq | hrow'
        · subst heq
          exact hname
        · exact ih (cnt + 1) row hrow'

theorem pythonCheckUsage_import_pos (found : List String) (content : String)
    (fp : String) (info : ElementInfo)
    (hnf : info.name ∉ found)
    (hne : content ≠ "")
    (hty : info.type = "property" ∨ info.type = "method" ∨ info.type = "function")
    (hdiff : (splitParts info.name).getD 0 "" ≠ pyModuleName fp)
    (himp : countMatches (mFromImport ((splitParts info.name).getD 0 "").toList
        ((((splitParts info.name)).getLast?).getD "").toList) content.toList > 0) :
    pythonCheckUsage found (some content) fp info = some info.name := by
  rw [pythonCheckUsage]
  have hany : ¬((found.any (fun s => s = info.name)) = true) := fun h =>
    hnf ((anyEq_iff_mem found info.name).mp h)
  rw [if_neg hany]
  simp only
  rw [if_neg hne]
  have hdec : decide ((splitParts info.name).getD 0 "" = pyModuleName fp) = false :=
    decide_eq_false hdiff
  have hmemPat : mFromImport ((splitParts info.name).getD 0 "").toList
      ((((splitParts info.name)).getLast?).getD "").toList ∈
      pyGetPatterns info false := by
    rw [pyGetPatterns]
    simp only [if_neg (Bool.false_ne_true)]
    refine List.mem_append_right _ ?_
    rcases hty with h | h | h <;>
      · rw [h, pyImportPatterns]
        simp [List.mem_cons]
  have hsum : 0 < ((pyGetPatterns info false).map
      (fun m => countMatches m content.toList)).sum := by
    have hin : countMatches (mFromImport ((splitParts info.name).getD 0 "").toList
        ((((splitParts info.name)).getLast?).getD "").toList) content.toList ∈
        (pyGetPatterns info false).map (fun m => countMatches m content.toList) :=
      List.mem_map_of_mem _ hmemPat
    calc 0 < _ := himp
    _ ≤ _ := List.single_le_sum (fun x _ => Nat.zero_le x) _ hin
  rw [hdec]
  rw [if_pos hsum]

/-- C6: cross-file import evidence.  For any indexed Python element and
any scanned file other than its declaring module, a matching from-import
statement in that file's content makes `check_usage` report the element
used, so the element is excluded from the emitted unused set (no limit
configured, so every file is visited). -/
theorem C6_import_evidence_excludes
    (snap : Snapshot) (name : String) (info : ElementInfo) (fp content : String)
    (hfp : fp ∈ snap.source_files ++ snap.test_files)
    (hread : snap.read_file fp = some content)
    (hne : content ≠ "")
    (hidx : dictLookup (collectElements
        (fun c fp => pythonAnalyzeFileContent c.toList fp)
        snap.read_file snap.source_files) name = some info)
    (hdiff : (splitParts name).getD 0 "" ≠ pyModuleName fp)
    (himp : countMatches (mFromImport ((splitParts name).getD 0 "").toList
        (((splitParts name).getLast?).getD "").toList) content.toList > 0) :
    name ∉ (pythonAnalyze snap none).map (fun r => r.1) := by
  have hlast : collectLast (fun c fp => pythonAnalyzeFileContent c.toList fp)
      snap.read_file snap.source_files name = some info := by
    have e : dictLookup (collectElements
        (fun c fp => pythonAnalyzeFileContent c.toList fp)
        snap.read_file snap.source_files) name
        = collectLast (fun c fp => pythonAnalyzeFileContent c.toList fp)
          snap.read_file snap.source_files name := by
      have h := collectElements_foldl_lookup
        (fun c fp => pythonAnalyzeFileContent c.toList fp)
        snap.read_file snap.source_files [] name
      simpa [collectElements, dictLookup, optOr_none_right] using h
    rw [← e]
    exact hidx
  obtain ⟨fp', c', _, _, hmem'⟩ := collectLast_mem
    (fun c fp => pythonAnalyzeFileContent c.toList fp)
    snap.read_file snap.source_files name info hlast
  obtain ⟨hname, -, hty, -, -⟩ := pyAFC_mem_shape c'.toList fp' (name, info) hmem'
  have hmemel : (name, info) ∈ collectElements
      (fun c fp => pythonAnalyzeFileContent c.toList fp)
      snap.read_file snap.source_files := dictLookup_mem hidx
  have hcu : ∀ found : List String, name ∉ found →
      pythonCheckUsage found (snap.read_file fp) fp info = some name := by
    intro found hnf
    rw [hread]
    have hpos := pythonCheckUsage_import_pos found content fp info
      (by rw [hname]; exact hnf) hne hty
      (by rw [hname]; exact hdiff) (by rw [hname]; exact himp)
    rw [hpos, hname]
  have hfound : name ∈ resolveUsage
      (fun found fp info => pythonCheckUsage found (snap.read_file fp) fp info)
      (collectElements (fun c fp => pythonAnalyzeFileContent c.toList fp)
        snap.read_file snap.source_files) none
      (snap.source_files ++ snap.test_files) [] :=
    resolveUsage_hit
      (fun found fp info => pythonCheckUsage found (snap.read_file fp) fp info)
      (collectElements (fun c fp => pythonAnalyzeFileContent c.toList fp)
        snap.read_file snap.source_files) name info fp hmemel hcu _ [] hfp
  intro hmap
  obtain ⟨row, hrow, hrowname⟩ := List.mem_map.mp hmap
  rw [pythonAnalyze, analyze] at hrow
  have hrow2 := (mem_sortByLinesDesc row _).mp hrow
  simp only [unsortedResults] at hrow2
  have hnotf := collectUnused_not_found _ none _ 0 row hrow2
  rw [hrowname] at hnotf
  exact hnotf hfound

/-- Declaring module for the C6 witness. -/
def c6ModContent : String := "def helper():\n    pass\n"

/-- Second file for the C6 witness: imports `helper` by name, never calls
it. -/
def c6UseContent : String := "from m import helper\n"

/-- Snapshot for the C6 witness. -/
def snapC6 : Snapshot :=
  ⟨["m.py", "u.py"], [],
   fun p => if p = "m.py" then some c6ModContent
     else if p = "u.py" then some c6UseContent else none⟩

/-- The element the C6 witness tracks, exactly as extracted from `m.py`. -/
def c6Info : ElementInfo :=
  { name := "m::helper", lines := 3, base_name := "helper", class_name := none,
    type := "function", status := "" }

set_option maxRecDepth 400000 in
/-- Witness for C6 at a concrete two-file corpus. -/
theorem C6_witness :
    snapC6.read_file "u.py" = some c6UseContent ∧
    "m::helper" ∉ (pythonAnalyze snapC6 none).map (fun r => r.1) :=
  ⟨rfl,
   C6_import_evidence_excludes snapC6 "m::helper" c6Info "u.py" c6UseContent
     (by decide) rfl (by decide) (by decide) (by decide) (by decide)⟩

/-! ## Claim C10 — empty content behaves like an undecodable file -/

theorem phpCheckUsage_some_empty (found : List String) (info : ElementInfo) :
    phpCheckUsage found (some "") info = none := by
  rw [phpCheckUsage]
  split
  · rfl
  · simp

theorem phpCheckUsage_none_content (found : List String) (info : ElementInfo) :
    phpCheckUsage found none info = none := by
  rw [phpCheckUsage]
  split <;> rfl

theorem pythonCheckUsage_some_empty (found : List String) (fp : String)
    (info : ElementInfo) : pythonCheckUsage found (some "") fp info = none := by
  rw [pythonCheckUsage]
  split
  · rfl
  · simp

theorem pythonCheckUsage_none_content (found : List String) (fp : String)
    (info : ElementInfo) : pythonCheckUsage found none fp info = none := by
  rw [pythonCheckUsage]
  split <;> rfl

theorem collectElements_congr_read (afc : String → String → Dict ElementInfo)
    (r1 r2 : String → Option String) (p : String)
    (h1 : r1 p = some "") (h2 : r2 p = none)
    (h3 : ∀ q, q ≠ p → r1 q = r2 q) (files : List String) :
    collectElements afc r1 files = collectElements afc r2 files := by
  have hstep : ∀ (el : Dict ElementInfo) (fp : String),
      (match r1 fp with
       | some content =>
         if content = "" then el else dictUpdate el (afc content fp)
       | none => el)
      = (match r2 fp with
         | some content =>
           if content = "" then el else dictUpdate el (afc content fp)
         | none => el) := by
    intro el fp
    by_cases hfp : fp = p
    · subst hfp
      rw [h1, h2]
      simp
    · rw [h3 fp hfp]
  have haux : ∀ (fs : List String) (acc : Dict ElementInfo),
      fs.foldl (fun elements fp =>
        match r1 fp with
        | some content =>
          if content = "" then elements else dictUpdate elements (afc content fp)
        | none => elements) acc
      = fs.foldl (fun elements fp =>
          match r2 fp with
          | some content =>
            if content = "" then elements else dictUpdate elements (afc content fp)
          | none => elements) acc := by
    intro fs
    induction fs with
    | nil => intro acc; rfl
    | cons fp rest ih =>
      intro acc
      rw [List.foldl_cons, List.foldl_cons, ih]
      exact congrArg (fun a => List.foldl _ a rest) (hstep acc fp)
  exact haux files []

theorem resolveUsage_congr (cu1 cu2 : List String → String → ElementInfo → Option String)
    (h : ∀ found fp info, cu1 found fp info = cu2 found fp info)
    (elements : Dict ElementInfo) (limit : Option Int) :
    ∀ (files : List String) (found : List String),
      resolveUsage cu1 elements limit files found
        = resolveUsage cu2 elements limit files found := by
  intro files
  induction files with
  | nil => intro found; rfl
  | cons fp rest ih =>
    intro found
    rw [resolveUsage, resolveUsage]
    split
    · rfl
    · have hmap : (fun e => cu1 found fp e) = (fun e => cu2 found fp e) :=
        funext (fun e => h found fp e)
      rw [hmap, ih]

/-- C10: a file that decodes to the empty string is indistinguishable from
an undecodable file: both runs produce identical results (no extraction
contribution), and `check_usage` reports no match for either content. -/
theorem C10_empty_equals_undecodable (src tst : List String)
    (r1 r2 : String → Option String) (p : String) (limit : Option Int)
    (found : List String) (info : ElementInfo) (fp : String)
    (h1 : r1 p = some "") (h2 : r2 p = none)
    (h3 : ∀ q, q ≠ p → r1 q = r2 q) :
    phpAnalyze ⟨src, tst, r1⟩ limit = phpAnalyze ⟨src, tst, r2⟩ limit ∧
    pythonAnalyze ⟨src, tst, r1⟩ limit = pythonAnalyze ⟨src, tst, r2⟩ limit ∧
    phpCheckUsage found (r1 p) info = none ∧
    pythonCheckUsage found (r1 p) fp info = none := by
  have hcu_php : ∀ found' fp' info', phpCheckUsage found' (r1 fp') info'
      = phpCheckUsage found' (r2 fp') info' := by
    intro found' fp' info'
    by_cases hfp : fp' = p
    · subst hfp
      rw [h1, h2, phpCheckUsage_some_empty, phpCheckUsage_none_content]
    · rw [h3 fp' hfp]
  have hcu_py : ∀ found' fp' info', pythonCheckUsage found' (r1 fp') fp' info'
      = pythonCheckUsage found' (r2 fp') fp' info' := by
    intro found' fp' info'
    by_cases hfp : fp' = p
    · subst hfp
      rw [h1, h2, pythonCheckUsage_some_empty, pythonCheckUsage_none_content]
    · rw [h3 fp' hfp]
  refine ⟨?_, ?_, ?_, ?_⟩
  · simp only [phpAnalyze, analyze, unsortedResults]
    rw [collectElements_congr_read (fun c fp => phpAnalyzeFileContent c.toList fp)
      r1 r2 p h1 h2 h3 src]
    rw [resolveUsage_congr
      (fun found fp info => phpCheckUsage found (r1 fp) info)
      (fun found fp info => phpCheckUsage found (r2 fp) info)
      hcu_php]
  · simp only [pythonAnalyze, analyze, unsortedResults]
    rw [collectElements_congr_read (fun c fp => pythonAnalyzeFileContent c.toList fp)
      r1 r2 p h1 h2 h3 src]
    rw [resolveUsage_congr
      (fun found fp info => pythonCheckUsage found (r1 fp) fp info)
      (fun found fp info => pythonCheckUsage found (r2 fp) fp info)
      hcu_py]
  · rw [h1, phpCheckUsage_some_empty]
  · rw [h1, pythonCheckUsage_some_empty]

/-- Reads of the C10 witness: `e.py` decodes to the empty string. -/
def c10Read1 : String → Option String :=
  fun q => if q = "e.py" then some "" else none

/-- Reads of the C10 witness: `e.py` is undecodable. -/
def c10Read2 : String → Option String := fun _ => none

/-- An arbitrary concrete element for the C10 witness `check_usage` calls. -/
def c10Info : ElementInfo :=
  { name := "x::f", lines := 1, base_name := "f", class_name := none,
    type := "function", status := "" }

/-- Witness for C10 at a concrete one-file snapshot. -/
theorem C10_witness :
    phpAnalyze ⟨["e.py"], [], c10Read1⟩ none
      = phpAnalyze ⟨["e.py"], [], c10Read2⟩ none ∧
    pythonAnalyze ⟨["e.py"], [], c10Read1⟩ none
      = pythonAnalyze ⟨["e.py"], [], c10Read2⟩ none ∧
    phpCheckUsage [] (c10Read1 "e.py") c10Info = none ∧
    pythonCheckUsage [] (c10Read1 "e.py") "e.py" c10Info = none :=
  C10_empty_equals_undecodable ["e.py"] [] c10Read1 c10Read2 "e.py" none []
    c10Info "e.py" rfl rfl
    (fun q hq => by simp [c10Read1, c10Read2, hq])
